import Mathlib

/-!
Verification development for the Bun standalone bundle extractor
(`unbun.py`): a binary-format parser that locates a trailer-tagged
module-graph table inside an executable image, decodes a fixed-layout
record table, and resolves packed offset/length pointers into byte
ranges.

The embedding models the input file as a list of bytes (`Fin 256`),
Python integers as `Nat` (Python byte indexing and `int.from_bytes`
yield non-negative integers), Python slices `b[i:j]` as
`(b.drop i).take (j - i)`, and each distinct `ExtractionError` message
as a constructor of `FormatError`. Fallible functions return
`Except FormatError`.
-/

abbrev Byte := Fin 256

/-- Error taxonomy: one constructor per distinct failure raised by the
source (`ExtractionError` messages), in source order. -/
inductive FormatError where
  | TrailerNotFound
  | OffsetsOutOfRange
  | InvalidByteCount
  | StartBeforeFile
  | PointerOutOfRange
  | TableOutOfBounds
  | NoEntriesFound
  deriving DecidableEq, Repr

/-- The fixed 16-byte trailer marker, byte values of the ASCII string
consisting of a newline, four dashes, a space, the word Bun with an
exclamation mark, a space, four dashes and a newline. -/
def TRAILER : List Byte :=
  [10, 45, 45, 45, 45, 32, 66, 117, 110, 33, 32, 45, 45, 45, 45, 10]

def OFFSETS_STRUCT_SIZE : Nat := 32

def MODULE_STRUCT_SIZE : Nat := 36

/-- Little-endian value of a byte list: the first byte is least
significant, as computed by the Python call to int.from_bytes with the
little argument. -/
def leVal : List Byte → Nat
  | [] => 0
  | b :: rest => b.val + 256 * leVal rest

/-- Value of the `n` bytes of `buf` starting at index `start`,
little-endian (Python slices clamp at the end of the sequence, as does
`take`). -/
def readLE (buf : List Byte) (start n : Nat) : Nat :=
  leVal ((buf.drop start).take n)

/-- Predicate: the pattern occurs in `buf` starting at index `i`. -/
def matchesAt (buf pat : List Byte) (i : Nat) : Bool :=
  (buf.drop i).take pat.length == pat

/-- Scan downward from start index `i` for the last occurrence of
`pat`; models the downward search performed by Python `bytes.rfind`. -/
def rfindFrom (buf pat : List Byte) : Nat → Option Nat
  | 0 => if matchesAt buf pat 0 then some 0 else none
  | i + 1 => if matchesAt buf pat (i + 1) then some (i + 1) else rfindFrom buf pat i

/-- Index of the last occurrence of `pat` in `buf` (`none` models the
-1 return of Python `rfind`). -/
def rfind (buf pat : List Byte) : Option Nat :=
  rfindFrom buf pat buf.length

/-- Split packed 64-bit pointer into (offset, length): low 32 bits are
the offset, the next 32 bits the length.  Direct translation of
`decode_pointer`. -/
def decode_pointer (raw : Nat) : Nat × Nat :=
  (raw &&& 0xFFFFFFFF, (raw >>> 32) &&& 0xFFFFFFFF)

/-- Direct translation of `slice_from`: resolve a pointer against a
region.  Zero length yields the empty result before any bounds check;
otherwise the range must end inside the region (offsets are `Nat`, so
the `offset < 0` disjunct of the source check cannot fire); a single
trailing NUL byte of the copied range is dropped. -/
def slice_from (blob : List Byte) (pointer : Nat × Nat) : Except FormatError (List Byte) :=
  if pointer.2 = 0 then .ok []
  else if blob.length < pointer.1 + pointer.2 then .error .PointerOutOfRange
  else
    let data := (blob.drop pointer.1).take pointer.2
    if data.getLast? = some 0 then .ok data.dropLast else .ok data

/-- Direct translation of `find_module_graph`: locate the last trailer
marker, read the 32-byte offsets struct preceding it (byte count, then
the packed modules pointer), validate the byte count and derived start,
and return the module-graph region with the raw modules pointer. -/
def find_module_graph (buffer : List Byte) : Except FormatError (List Byte × Nat) :=
  match rfind buffer TRAILER with
  | none => .error .TrailerNotFound
  | some trailer_idx =>
    if trailer_idx < OFFSETS_STRUCT_SIZE then .error .OffsetsOutOfRange
    else
      let offsets_start := trailer_idx - OFFSETS_STRUCT_SIZE
      let byte_count := readLE buffer offsets_start 8
      if byte_count = 0 ∨ buffer.length < byte_count then .error .InvalidByteCount
      else if offsets_start < byte_count then .error .StartBeforeFile
      else
        let module_graph_start := offsets_start - byte_count
        .ok ((buffer.drop module_graph_start).take (offsets_start - module_graph_start),
             readLE buffer (offsets_start + 8) 8)

/-- A byte is a UTF-8 continuation byte (high bits 10). -/
def contB (c : Byte) : Bool := 0x80 ≤ c.val && c.val ≤ 0xBF

/-- Valid range of the first continuation byte of a three-byte UTF-8
sequence with lead byte `b` (restricted for lead E0 and ED to exclude
overlong encodings and surrogates, as CPython does). -/
def cont3First (b c : Byte) : Bool :=
  if b.val = 0xE0 then 0xA0 ≤ c.val && c.val ≤ 0xBF
  else if b.val = 0xED then 0x80 ≤ c.val && c.val ≤ 0x9F
  else contB c

/-- Valid range of the first continuation byte of a four-byte UTF-8
sequence with lead byte `b` (restricted for lead F0 and F4 to exclude
overlong encodings and values above U+10FFFF, as CPython does). -/
def cont4First (b c : Byte) : Bool :=
  if b.val = 0xF0 then 0x90 ≤ c.val && c.val ≤ 0xBF
  else if b.val = 0xF4 then 0x80 ≤ c.val && c.val ≤ 0x8F
  else contB c

/-- Total UTF-8 decoder with replacement, modelling the Python call to
bytes.decode with utf-8 and the replace error handler: each maximal
valid subpart of an ill-formed sequence is replaced by one U+FFFD
(65533) and decoding resumes at the offending byte.  The result is the
list of decoded code points. -/
def utf8Replace : List Byte → List Nat
  | [] => []
  | b :: rest =>
    if b.val ≤ 0x7F then b.val :: utf8Replace rest
    else if b.val < 0xC2 then 0xFFFD :: utf8Replace rest
    else if b.val ≤ 0xDF then
      match rest with
      | [] => [0xFFFD]
      | c :: r2 =>
        if contB c then ((b.val - 0xC0) * 64 + (c.val - 0x80)) :: utf8Replace r2
        else 0xFFFD :: utf8Replace (c :: r2)
    else if b.val ≤ 0xEF then
      match rest with
      | [] => [0xFFFD]
      | c :: r2 =>
        if cont3First b c then
          match r2 with
          | [] => [0xFFFD]
          | d :: r3 =>
            if contB d then
              ((b.val - 0xE0) * 4096 + (c.val - 0x80) * 64 + (d.val - 0x80)) :: utf8Replace r3
            else 0xFFFD :: utf8Replace (d :: r3)
        else 0xFFFD :: utf8Replace (c :: r2)
    else if b.val ≤ 0xF4 then
      match rest with
      | [] => [0xFFFD]
      | c :: r2 =>
        if cont4First b c then
          match r2 with
          | [] => [0xFFFD]
          | d :: r3 =>
            if contB d then
              match r3 with
              | [] => [0xFFFD]
              | e :: r4 =>
                if contB e then
                  ((b.val - 0xF0) * 262144 + (c.val - 0x80) * 4096 +
                    (d.val - 0x80) * 64 + (e.val - 0x80)) :: utf8Replace r4
                else 0xFFFD :: utf8Replace (e :: r4)
            else 0xFFFD :: utf8Replace (d :: r3)
        else 0xFFFD :: utf8Replace (c :: r2)
    else 0xFFFD :: utf8Replace rest
termination_by l => l.length
decreasing_by all_goals (simp_all [List.length_cons]; try omega)

/-- One decoded record as yielded by `iter_modules`: the permissively
decoded name (code points), the resolved contents bytes, and the four
raw metadata bytes. -/
structure Entry where
  name : List Nat
  contents : List Byte
  encoding : Nat
  loader : Nat
  module_format : Nat
  side : Nat
  deriving DecidableEq, Repr

/-- A packed pointer stored in a record as two consecutive 32-bit
little-endian fields at index `i` of the table: offset first, then
length. -/
def recPtr (table : List Byte) (i : Nat) : Nat × Nat :=
  (leVal ((table.drop i).take 4), leVal ((table.drop (i + 4)).take 4))

/-- Decode the 36-byte record at index `base` of `table` and resolve
its name and contents pointers against `graph`, as the loop body of
`iter_modules` does.  The sourcemap and bytecode pointers are read but
never resolved, matching the source. -/
def decodeRecord (graph table : List Byte) (base : Nat) : Except FormatError Entry :=
  let name_ptr := recPtr table base
  let contents_ptr := recPtr table (base + 8)
  let _sourcemap_ptr := recPtr table (base + 16)
  let _bytecode_ptr := recPtr table (base + 24)
  let encoding := (table.getD (base + 32) 0).val
  let loader := (table.getD (base + 33) 0).val
  let module_format := (table.getD (base + 34) 0).val
  let side := (table.getD (base + 35) 0).val
  match slice_from graph name_ptr with
  | .error e => .error e
  | .ok nameBytes =>
    match slice_from graph contents_ptr with
    | .error e => .error e
    | .ok contents =>
      .ok ⟨utf8Replace nameBytes, contents, encoding, loader, module_format, side⟩

/-- Decode the records at the given indices in order; the first
failing record aborts the whole decode, exactly as an exception raised
while the generator of the source is being consumed does. -/
def decodeList (graph table : List Byte) : List Nat → Except FormatError (List Entry)
  | [] => .ok []
  | idx :: rest =>
    match decodeRecord graph table (idx * MODULE_STRUCT_SIZE) with
    | .error e => .error e
    | .ok ent =>
      match decodeList graph table rest with
      | .error e => .error e
      | .ok ents => .ok (ent :: ents)

/-- Direct translation of `iter_modules`, with the lazily-produced
sequence materialised: an empty table (zero length or length not a
multiple of the record size) yields the empty list before the bounds
check; a table extending past the graph is an error; otherwise the
records are decoded in order. -/
def iter_modules (graph : List Byte) (modules_raw : Nat) : Except FormatError (List Entry) :=
  let mp := decode_pointer modules_raw
  if mp.2 = 0 ∨ mp.2 % MODULE_STRUCT_SIZE ≠ 0 then .ok []
  else if graph.length < mp.1 + mp.2 then .error .TableOutOfBounds
  else
    let count := mp.2 / MODULE_STRUCT_SIZE
    let table := (graph.drop mp.1).take mp.2
    decodeList graph table (List.range count)

/-- Test that `name` ends with the code-point sequence `suf` (Python endswith on
one suffix; list equality already fails when `suf` is longer than
`name`). -/
def endsWithSeq (name suf : List Nat) : Bool :=
  name.drop (name.length - suf.length) == suf

/-- The fixed source-file suffixes, as code-point sequences, in source
order: .js, .jsx, .ts, .tsx, .mjs, .cjs. -/
def JS_EXTENSIONS : List (List Nat) :=
  [[46, 106, 115], [46, 106, 115, 120], [46, 116, 115],
   [46, 116, 115, 120], [46, 109, 106, 115], [46, 99, 106, 115]]

/-- Direct translation of `should_extract`: binary encoding (0) is
never extracted; a recognised source-file suffix is extracted; loaders
1 and 2 (script and typed script) are the fallback. -/
def should_extract (name : List Nat) (encoding loader : Nat) : Bool :=
  if encoding = 0 then false
  else if JS_EXTENSIONS.any (fun ext => endsWithSeq name ext) then true
  else loader == 1 || loader == 2

/-- Code points of the bundled-filesystem root path that `extract`
strips from names: a slash, a dollar sign, the word bunfs, a slash,
the word root and a slash (13 code points). -/
def bunfsRoot : List Nat := [47, 36, 98, 117, 110, 102, 115, 47, 114, 111, 111, 116, 47]

/-- Replace every occurrence of `bunfsRoot` in `s` by nothing,
left to right and non-overlapping, as the Python replace call does. -/
def stripBunfs : List Nat → List Nat
  | [] => []
  | c :: rest =>
    if (c :: rest).take 13 == bunfsRoot then stripBunfs ((c :: rest).drop 13)
    else c :: stripBunfs rest
termination_by l => l.length
decreasing_by all_goals (simp_all [List.length_cons]; try omega)

/-- Python strip with a slash argument: drop leading and trailing
slashes (code point 47). -/
def stripSlashes (s : List Nat) : List Nat :=
  ((s.dropWhile (fun c => c == 47)).reverse.dropWhile (fun c => c == 47)).reverse

/-- Replace each slash by an underscore; on the modelled platform the
path separator is the slash, so the second replace of the source is
the same substitution. -/
def slashToUnder (c : Nat) : Nat := if c == 47 then 95 else c

/-- Decimal digits of a positive number, least significant first. -/
def decDigitsAux : Nat → List Nat
  | 0 => []
  | n + 1 => (48 + (n + 1) % 10) :: decDigitsAux ((n + 1) / 10)
termination_by n => n
decreasing_by exact Nat.div_lt_self (Nat.succ_pos _) (by omega)

/-- Code points of the decimal digits of `n`, most significant first. -/
def decimal (n : Nat) : List Nat :=
  if n = 0 then [48] else (decDigitsAux n).reverse

/-- The k-th candidate output name tried for a base name: the base
itself, then the base followed by an underscore and the counter. -/
def candidateName (base : List Nat) (k : Nat) : List Nat :=
  if k = 0 then base else base ++ 95 :: decimal k

/-- First candidate name not already written, as the collision loop of
`extract` computes it: candidates are tried in order base, base_1,
base_2, and so on; among the first `written.length + 1` candidates at
least one is unused, so the fallback branch is never reached. -/
def firstFresh (written : List (List Nat)) (base : List Nat) : List Nat :=
  match (List.range (written.length + 1)).find?
      (fun k => !(written.contains (candidateName base k))) with
  | some k => candidateName base k
  | none => candidateName base (written.length + 1)

/-- Code points of the word bundle, the fallback base name. -/
def bundleWord : List Nat := [98, 117, 110, 100, 108, 101]

/-- Code points of the output suffix .js. -/
def dotJs : List Nat := [46, 106, 115]

/-- The write loop of `extract`: sanitise each bundle name, pick a
collision-free candidate, and record the written (filename, contents)
pairs in order. -/
def writeAll (written : List (List Nat)) : List (List Nat × List Byte) → List (List Nat × List Byte)
  | [] => []
  | nc :: rest =>
    let rel := stripBunfs nc.1
    let base0 := (stripSlashes rel).map slashToUnder
    let base := if base0 = [] then bundleWord else base0
    let cand := firstFresh written base
    (cand ++ dotJs, nc.2) :: writeAll (cand :: written) rest

/-- The bundle list built by `extract`: decoded entries that satisfy
`should_extract`, reduced to their (name, contents) pair, in table
order. -/
def bundlesOf (entries : List Entry) : List (List Nat × List Byte) :=
  (entries.filter (fun ent => should_extract ent.name ent.encoding ent.loader)).map
    (fun ent => (ent.name, ent.contents))

/-- The parse-and-filter phase of `extract` (source lines up to the
emptiness test): locate the graph, decode every record, filter by
`should_extract`, and fail with NoEntriesFound when nothing is
eligible.  Every write of the source happens strictly after this
phase. -/
def extractBundles (buffer : List Byte) : Except FormatError (List (List Nat × List Byte)) :=
  match find_module_graph buffer with
  | .error e => .error e
  | .ok gm =>
    match iter_modules gm.1 gm.2 with
    | .error e => .error e
    | .ok entries =>
      let bundles := bundlesOf entries
      if bundles.isEmpty then .error .NoEntriesFound else .ok bundles

/-- Direct translation of `extract`, with the filesystem modelled as
the list of written (filename, contents) pairs returned alongside the
outcome: the bundle list is fully materialised before the write loop
runs, exactly as in the source. -/
def extract (buffer : List Byte) : Except FormatError Unit × List (List Nat × List Byte) :=
  match extractBundles buffer with
  | .error e => (.error e, [])
  | .ok bundles => (.ok (), writeAll [] bundles)

/-- A pointer is resolvable against a region: zero length, or its
range ends inside the region. -/
def ptrOk (graph : List Byte) (p : Nat × Nat) : Prop :=
  p.2 = 0 ∨ p.1 + p.2 ≤ graph.length

instance (graph : List Byte) (p : Nat × Nat) : Decidable (ptrOk graph p) := by
  unfold ptrOk
  infer_instance

/-- Claim C10: resolving a pointer of length 0 returns the empty byte
sequence for every region and every offset, even an offset past the
end of the region; the bounds check is skipped entirely. -/
theorem C10_zero_length_skips_bounds (blob : List Byte) (o : Nat) :
    slice_from blob (o, 0) = .ok [] := rfl

/-- Claim C1: for a pointer of positive length, slice resolution
succeeds exactly when the range ends inside the region (inclusive
upper bound), and an out-of-range pointer yields PointerOutOfRange
with a result that depends only on the length of the region, never on
its bytes: the check precedes any read. -/
theorem C1_slice_bounds (blob : List Byte) (o l : Nat) (hl : 0 < l) :
    ((∃ d, slice_from blob (o, l) = .ok d) ↔ o + l ≤ blob.length) ∧
    (∀ blob2 : List Byte, blob2.length = blob.length → blob.length < o + l →
      slice_from blob (o, l) = .error .PointerOutOfRange ∧
      slice_from blob2 (o, l) = .error .PointerOutOfRange) := by
  constructor
  · constructor
    · rintro ⟨d, hd⟩
      by_contra hb
      push_neg at hb
      simp [slice_from, hl.ne', hb] at hd
    · intro hb
      have hb2 : ¬ blob.length < o + l := by omega
      simp only [slice_from, hl.ne', if_false, hb2, if_neg]
      split
      · exact ⟨_, rfl⟩
      · exact ⟨_, rfl⟩
  · intro blob2 hlen hb
    constructor
    · simp [slice_from, hl.ne', hb]
    · simp [slice_from, hl.ne', hlen ▸ hb]

theorem C1_witness :
    slice_from ([0] : List Byte) (5, 1) = .error .PointerOutOfRange :=
  ((C1_slice_bounds [0] 5 1 (by decide)).2 [0] rfl (by decide)).1

/-- Success form of `slice_from` for a positive-length in-bounds
pointer: the copied range with at most one trailing NUL dropped. -/
theorem slice_from_pos (blob : List Byte) (o l : Nat) (hl : l ≠ 0)
    (hb2 : ¬ blob.length < o + l) :
    slice_from blob (o, l) =
      (if ((blob.drop o).take l).getLast? = some 0
       then .ok ((blob.drop o).take l).dropLast
       else .ok ((blob.drop o).take l)) := by
  simp [slice_from, hl, hb2]

/-- Claim C5: on a successfully resolved non-empty range, exactly one
trailing NUL is stripped: a range ending in two NUL bytes resolves to
the range with the final NUL dropped, a range ending in one NUL byte
resolves to a result with no trailing NUL, and a range not ending in
NUL resolves unchanged. -/
theorem C5_nul_strip (blob : List Byte) (o l : Nat) (hl : 0 < l)
    (hb : o + l ≤ blob.length) :
    (∀ p, (blob.drop o).take l = p ++ [0, 0] →
      slice_from blob (o, l) = .ok (p ++ [0])) ∧
    (∀ p, (blob.drop o).take l = p ++ [0] → p.getLast? ≠ some 0 →
      slice_from blob (o, l) = .ok p ∧ p.getLast? ≠ some 0) ∧
    (((blob.drop o).take l).getLast? ≠ some 0 →
      slice_from blob (o, l) = .ok ((blob.drop o).take l)) := by
  have hb2 : ¬ blob.length < o + l := by omega
  refine ⟨?_, ?_, ?_⟩
  · intro p hp
    have e : p ++ [(0 : Byte), 0] = (p ++ [0]) ++ [0] := by simp
    rw [slice_from_pos blob o l hl.ne' hb2, hp, e, List.getLast?_concat,
      if_pos rfl, List.dropLast_concat]
  · intro p hp hp2
    refine ⟨?_, hp2⟩
    rw [slice_from_pos blob o l hl.ne' hb2, hp, List.getLast?_concat,
      if_pos rfl, List.dropLast_concat]
  · intro h1
    rw [slice_from_pos blob o l hl.ne' hb2, if_neg h1]

theorem C5_witness :
    slice_from ([65, 0, 0] : List Byte) (0, 3) = .ok [65, 0] :=
  (C5_nul_strip [65, 0, 0] 0 3 (by decide) (by decide)).1 [65] (by decide)

/-- Arithmetic form of `decode_pointer`: low 32 bits, then the next 32
bits. -/
theorem decode_pointer_eq (raw : Nat) :
    decode_pointer raw = (raw % 2 ^ 32, raw / 2 ^ 32 % 2 ^ 32) := by
  have h1 : (0xFFFFFFFF : Nat) = 2 ^ 32 - 1 := by norm_num
  unfold decode_pointer
  rw [h1, Nat.and_pow_two_sub_one_eq_mod, Nat.and_pow_two_sub_one_eq_mod,
    Nat.shiftRight_eq_div_pow]

/-- Joining a 32-bit length and offset by shift and bitwise or is plain
arithmetic when the offset fits in 32 bits. -/
theorem join_eq_add (a b : Nat) (hb : b < 2 ^ 32) :
    (a <<< 32) ||| b = 2 ^ 32 * a + b := by
  rw [Nat.shiftLeft_eq, Nat.mul_comm a (2 ^ 32), ← Nat.mul_add_lt_is_or hb]

/-- Claim C7: pointer packing is a bijection over the 32+32-bit range:
decoding the packed value built from a 32-bit offset and length
recovers the pair, and re-packing the decoded pair of a 64-bit raw
value recovers the raw value. -/
theorem C7_pointer_bijection :
    (∀ o l : Nat, o < 2 ^ 32 → l < 2 ^ 32 →
      decode_pointer ((l <<< 32) ||| o) = (o, l)) ∧
    (∀ raw : Nat, raw < 2 ^ 64 →
      ((decode_pointer raw).2 <<< 32) ||| (decode_pointer raw).1 = raw) := by
  constructor
  · intro o l ho hl
    rw [join_eq_add l o ho, decode_pointer_eq]
    have h2 : (2 ^ 32 * l + o) % 2 ^ 32 = o := by omega
    have h3 : (2 ^ 32 * l + o) / 2 ^ 32 % 2 ^ 32 = l := by
      have : (2 ^ 32 * l + o) / 2 ^ 32 = l := by omega
      rw [this]; omega
    rw [h2, h3]
  · intro raw hraw
    rw [decode_pointer_eq]
    have hm : raw % 2 ^ 32 < 2 ^ 32 := Nat.mod_lt _ (by norm_num)
    rw [join_eq_add _ _ hm]
    omega

theorem C7_witness :
    decode_pointer ((36 <<< 32) ||| 5) = (5, 36) :=
  C7_pointer_bijection.1 5 36 (by norm_num) (by norm_num)

/-- Claim C6: the eligibility predicate holds exactly when the encoding
is non-zero and either the name carries one of the fixed source-file
suffixes or the loader is 1 or 2; in particular encoding 0 is never
eligible, a non-zero encoding with a name ending in .ts is eligible for
every loader, and a non-zero encoding with loader 1 is eligible without
any suffix match. -/
theorem C6_eligibility (name : List Nat) (encoding loader : Nat) :
    (should_extract name encoding loader = true ↔
      (encoding ≠ 0 ∧ (JS_EXTENSIONS.any (fun ext => endsWithSeq name ext) = true ∨
        loader = 1 ∨ loader = 2))) ∧
    (encoding = 0 → should_extract name encoding loader = false) ∧
    (encoding ≠ 0 → endsWithSeq name [46, 116, 115] = true →
      should_extract name encoding loader = true) ∧
    (encoding ≠ 0 → loader = 1 → should_extract name encoding loader = true) := by
  refine ⟨?_, ?_, ?_, ?_⟩
  · unfold should_extract
    split
    · simp_all
    · split
      · simp_all
      · simp_all
  · intro h; simp [should_extract, h]
  · intro h hts
    have hany : JS_EXTENSIONS.any (fun ext => endsWithSeq name ext) = true :=
      List.any_eq_true.mpr ⟨[46, 116, 115], by simp [JS_EXTENSIONS], hts⟩
    simp [should_extract, h, hany]
  · intro h hl
    simp [should_extract, h, hl]

theorem C6_witness : should_extract [97, 46, 116, 115] 1 9 = true :=
  (C6_eligibility [97, 46, 116, 115] 1 9).2.2.1 (by decide) (by decide)

/-- A non-empty pattern cannot match at or past the end of the
buffer. -/
theorem matchesAt_ge (buf pat : List Byte) (hp : pat ≠ []) (i : Nat)
    (h : buf.length ≤ i) : matchesAt buf pat i = false := by
  unfold matchesAt
  rw [List.drop_eq_nil_of_le h]
  cases pat with
  | nil => exact absurd rfl hp
  | cons a l => simp

/-- The downward scan returns a match, at most its start index, and no
later index up to the start matches. -/
theorem rfindFrom_some (buf pat : List Byte) (i t : Nat)
    (h : rfindFrom buf pat i = some t) :
    matchesAt buf pat t = true ∧ t ≤ i ∧
      ∀ j, j ≤ i → matchesAt buf pat j = true → j ≤ t := by
  induction i with
  | zero =>
    unfold rfindFrom at h
    split at h
    · cases h
      exact ⟨by assumption, Nat.le_refl 0, fun j hj _ => hj⟩
    · cases h
  | succ n ih =>
    unfold rfindFrom at h
    split at h
    · cases h
      exact ⟨by assumption, Nat.le_refl _, fun j hj _ => hj⟩
    · rcases ih h with ⟨h1, h2, h3⟩
      refine ⟨h1, Nat.le_succ_of_le h2, fun j hj hm => ?_⟩
      by_cases hj2 : j = n + 1
      · subst hj2; simp_all
      · exact h3 j (by omega) hm

/-- The downward scan fails exactly when no index up to the start
matches. -/
theorem rfindFrom_none (buf pat : List Byte) (i : Nat) :
    rfindFrom buf pat i = none ↔ ∀ j, j ≤ i → matchesAt buf pat j = false := by
  induction i with
  | zero =>
    unfold rfindFrom
    split
    · rename_i hm
      constructor
      · intro h; cases h
      · intro h; exact absurd (h 0 (Nat.le_refl 0)) (by simp [hm])
    · rename_i hm
      constructor
      · intro _ j hj
        have hj0 : j = 0 := Nat.le_zero.mp hj
        subst hj0
        simpa using hm
      · intro _; rfl
  | succ n ih =>
    unfold rfindFrom
    split
    · rename_i hm
      constructor
      · intro h; cases h
      · intro h; exact absurd (h (n + 1) (Nat.le_refl _)) (by simp [hm])
    · rename_i hm
      rw [ih]
      constructor
      · intro h j hj
        by_cases hj2 : j = n + 1
        · subst hj2; simpa using hm
        · exact h j (by omega)
      · intro h j hj
        exact h j (by omega)

/-- Failure of `rfind` happens exactly when the (non-empty) pattern occurs nowhere
in the buffer. -/
theorem rfind_none_iff (buf pat : List Byte) (hp : pat ≠ []) :
    rfind buf pat = none ↔ ∀ i, matchesAt buf pat i = false := by
  unfold rfind
  rw [rfindFrom_none]
  constructor
  · intro h i
    by_cases hi : i ≤ buf.length
    · exact h i hi
    · exact matchesAt_ge buf pat hp i (by omega)
  · intro h j _
    exact h j

/-- A successful `rfind` returns the last occurrence of a non-empty
pattern. -/
theorem rfind_last (buf pat : List Byte) (hp : pat ≠ []) (t : Nat)
    (h : rfind buf pat = some t) :
    matchesAt buf pat t = true ∧ ∀ j, matchesAt buf pat j = true → j ≤ t := by
  rcases rfindFrom_some buf pat buf.length t h with ⟨h1, _, h3⟩
  refine ⟨h1, fun j hm => ?_⟩
  by_cases hj : j ≤ buf.length
  · exact h3 j hj hm
  · rw [matchesAt_ge buf pat hp j (by omega)] at hm
    cases hm

/-- Closed form of the locator once the trailer index is known. -/
theorem find_module_graph_some (buffer : List Byte) (t : Nat)
    (hr : rfind buffer TRAILER = some t) :
    find_module_graph buffer =
      (if t < 32 then .error .OffsetsOutOfRange
       else if readLE buffer (t - 32) 8 = 0 ∨ buffer.length < readLE buffer (t - 32) 8 then
         .error .InvalidByteCount
       else if t - 32 < readLE buffer (t - 32) 8 then .error .StartBeforeFile
       else .ok ((buffer.drop (t - 32 - readLE buffer (t - 32) 8)).take
                   (t - 32 - (t - 32 - readLE buffer (t - 32) 8)),
                 readLE buffer (t - 32 + 8) 8)) := by
  unfold find_module_graph
  rw [hr]
  rfl

/-- Claim C2: the locator fails with TrailerNotFound exactly when the
16-byte marker is absent; a found trailer index is the last occurrence
of the marker; and on success the module graph is the byte range from
trailer index minus 32 minus the byte count up to trailer index minus
32, with the raw modules pointer read little-endian at trailer index
minus 24. -/
theorem C2_locator (buffer : List Byte) :
    (find_module_graph buffer = .error .TrailerNotFound ↔
      ∀ i, matchesAt buffer TRAILER i = false) ∧
    (∀ t, rfind buffer TRAILER = some t →
      matchesAt buffer TRAILER t = true ∧
      ∀ j, matchesAt buffer TRAILER j = true → j ≤ t) ∧
    (∀ g m, find_module_graph buffer = .ok (g, m) →
      ∃ t, rfind buffer TRAILER = some t ∧
        g = (buffer.drop (t - 32 - readLE buffer (t - 32) 8)).take
              (readLE buffer (t - 32) 8) ∧
        m = readLE buffer (t - 24) 8) := by
  refine ⟨?_, ?_, ?_⟩
  · cases hr : rfind buffer TRAILER with
    | none =>
      constructor
      · intro _
        exact (rfind_none_iff buffer TRAILER (by decide)).mp hr
      · intro _
        unfold find_module_graph
        rw [hr]
    | some t =>
      constructor
      · intro h
        exfalso
        rw [find_module_graph_some buffer t hr] at h
        split_ifs at h
        all_goals simp_all
      · intro hall
        exfalso
        have hm := (rfind_last buffer TRAILER (by decide) t hr).1
        rw [hall t] at hm
        cases hm
  · intro t hr
    exact rfind_last buffer TRAILER (by decide) t hr
  · intro g m h
    cases hr : rfind buffer TRAILER with
    | none =>
      unfold find_module_graph at h
      rw [hr] at h
      cases h
    | some t =>
      rw [find_module_graph_some buffer t hr] at h
      split_ifs at h with h1 h2 h3
      all_goals cases h
      refine ⟨t, rfl, ?_, ?_⟩
      · congr 1
        omega
      · congr 1
        omega

theorem C2_witness : find_module_graph [] = .error .TrailerNotFound :=
  (C2_locator []).1.mpr (by intro i; simp [matchesAt, TRAILER])

/-- Claim C3: when the trailer is found at index `t`, the locator fails
with OffsetsOutOfRange if `t` is below 32; otherwise it parses the
byte count little-endian at `t - 32` and fails with InvalidByteCount
exactly when that count is zero or exceeds the buffer length, and
failing that it fails with StartBeforeFile exactly when the count
reaches past the start of the file. -/
theorem C3_header_validation (buffer : List Byte) (t : Nat)
    (hr : rfind buffer TRAILER = some t) :
    (t < 32 → find_module_graph buffer = .error .OffsetsOutOfRange) ∧
    (32 ≤ t →
      (find_module_graph buffer = .error .InvalidByteCount ↔
        (readLE buffer (t - 32) 8 = 0 ∨ buffer.length < readLE buffer (t - 32) 8)) ∧
      (readLE buffer (t - 32) 8 ≠ 0 → readLE buffer (t - 32) 8 ≤ buffer.length →
        (find_module_graph buffer = .error .StartBeforeFile ↔
          t - 32 < readLE buffer (t - 32) 8))) := by
  rw [find_module_graph_some buffer t hr]
  refine ⟨?_, ?_⟩
  · intro h
    rw [if_pos h]
  · intro ht
    rw [if_neg (by omega)]
    constructor
    · constructor
      · intro h
        by_contra hbc
        rw [if_neg hbc] at h
        split_ifs at h
        all_goals simp_all
      · intro hbc
        rw [if_pos hbc]
    · intro hz hle
      rw [if_neg (by omega)]
      constructor
      · intro h
        by_contra hs
        rw [if_neg hs] at h
        simp_all
      · intro hs
        rw [if_pos hs]

theorem C3_witness : find_module_graph TRAILER = .error .OffsetsOutOfRange :=
  (C3_header_validation TRAILER 0 (by decide)).1 (by decide)

/-- The record size constant in arithmetic form. -/
theorem msize_eq : MODULE_STRUCT_SIZE = 36 := rfl

/-- The only error `slice_from` can raise is PointerOutOfRange. -/
theorem slice_from_error (blob : List Byte) (p : Nat × Nat) (e : FormatError)
    (h : slice_from blob p = .error e) : e = .PointerOutOfRange := by
  obtain ⟨o, l⟩ := p
  by_cases hl : l = 0
  · subst hl
    simp [slice_from] at h
  · by_cases hb : blob.length < o + l
    · have hpor : slice_from blob (o, l) = .error .PointerOutOfRange := by
        simp [slice_from, hl, hb]
      rw [hpor] at h
      exact (Except.error.inj h).symm
    · rw [slice_from_pos blob o l hl hb] at h
      split at h
      · cases h
      · cases h

/-- Unfolded form of `decodeRecord` with the let bindings of the
unused pointers and metadata reads reduced away. -/
theorem decodeRecord_eq (graph table : List Byte) (base : Nat) :
    decodeRecord graph table base =
      match slice_from graph (recPtr table base) with
      | .error e => .error e
      | .ok nameBytes =>
        match slice_from graph (recPtr table (base + 8)) with
        | .error e => .error e
        | .ok contents =>
          .ok ⟨utf8Replace nameBytes, contents,
               (table.getD (base + 32) 0).val, (table.getD (base + 33) 0).val,
               (table.getD (base + 34) 0).val, (table.getD (base + 35) 0).val⟩ := rfl

/-- The only error `decodeRecord` can raise is PointerOutOfRange. -/
theorem decodeRecord_error (graph table : List Byte) (base : Nat) (e : FormatError)
    (h : decodeRecord graph table base = .error e) : e = .PointerOutOfRange := by
  rw [decodeRecord_eq] at h
  split at h
  · exact slice_from_error _ _ _ (by rw [← Except.error.inj h]; assumption)
  · split at h
    · exact slice_from_error _ _ _ (by rw [← Except.error.inj h]; assumption)
    · cases h

/-- The only error the record loop can raise is PointerOutOfRange. -/
theorem decodeList_error (graph table : List Byte) (l : List Nat) (e : FormatError)
    (h : decodeList graph table l = .error e) : e = .PointerOutOfRange := by
  induction l with
  | nil => cases h
  | cons idx rest ih =>
    unfold decodeList at h
    split at h
    · exact decodeRecord_error _ _ _ _ (by rw [← Except.error.inj h]; assumption)
    · split at h
      · exact ih (by rw [← Except.error.inj h]; assumption)
      · cases h

/-- Claim C4: a modules pointer whose length is zero or not a multiple
of 36 yields the empty sequence without error, whatever the offset;
otherwise TableOutOfBounds is raised exactly when the table overruns
the graph, and the emptiness test precedes the bounds test. -/
theorem C4_table_checks (graph : List Byte) (modules_raw : Nat) :
    ((decode_pointer modules_raw).2 = 0 ∨ (decode_pointer modules_raw).2 % 36 ≠ 0 →
      iter_modules graph modules_raw = .ok []) ∧
    ((decode_pointer modules_raw).2 ≠ 0 → (decode_pointer modules_raw).2 % 36 = 0 →
      (iter_modules graph modules_raw = .error .TableOutOfBounds ↔
        graph.length < (decode_pointer modules_raw).1 + (decode_pointer modules_raw).2)) := by
  constructor
  · intro h
    unfold iter_modules
    rw [if_pos]
    exact h
  · intro h1 h2
    have hcond : ¬((decode_pointer modules_raw).2 = 0 ∨
        (decode_pointer modules_raw).2 % MODULE_STRUCT_SIZE ≠ 0) := by
      simp only [msize_eq]
      push_neg
      exact ⟨h1, h2⟩
    unfold iter_modules
    rw [if_neg hcond]
    by_cases hb : graph.length < (decode_pointer modules_raw).1 + (decode_pointer modules_raw).2
    · rw [if_pos hb]
      simp [hb]
    · rw [if_neg hb]
      simp only [hb, iff_false]
      intro hc
      cases decodeList_error _ _ _ _ hc

theorem C4_witness : iter_modules [] (35 * 2 ^ 32) = .ok [] :=
  (C4_table_checks [] (35 * 2 ^ 32)).1 (by decide)

/-- A resolvable pointer always slices successfully. -/
theorem slice_from_ok (blob : List Byte) (p : Nat × Nat) (h : ptrOk blob p) :
    ∃ d, slice_from blob p = .ok d := by
  obtain ⟨o, l⟩ := p
  by_cases hl : l = 0
  · exact ⟨[], by simp [slice_from, hl]⟩
  · have hb : ¬ blob.length < o + l := by
      rcases h with h | h
      · exact absurd h hl
      · omega
    rw [slice_from_pos blob o l hl hb]
    split
    · exact ⟨_, rfl⟩
    · exact ⟨_, rfl⟩

/-- Claim C9: decoding a record whose name and contents pointers are
in bounds always succeeds, whatever the bytes behind the name pointer
are: permissive text decoding is total, so no name content can make
the decode fail. -/
theorem C9_decode_total (graph table : List Byte) (base : Nat)
    (hn : ptrOk graph (recPtr table base))
    (hc : ptrOk graph (recPtr table (base + 8))) :
    ∃ ent, decodeRecord graph table base = .ok ent := by
  rcases slice_from_ok graph (recPtr table base) hn with ⟨nb, hnb⟩
  rcases slice_from_ok graph (recPtr table (base + 8)) hc with ⟨cb, hcb⟩
  refine ⟨⟨utf8Replace nb, cb,
    (table.getD (base + 32) 0).val, (table.getD (base + 33) 0).val,
    (table.getD (base + 34) 0).val, (table.getD (base + 35) 0).val⟩, ?_⟩
  rw [decodeRecord_eq, hnb, hcb]

theorem C9_witness :
    ((decodeRecord [] (List.replicate 36 0) 0).toOption).isSome = true := by
  rcases C9_decode_total [] (List.replicate 36 0) 0 (by decide) (by decide) with ⟨ent, h⟩
  rw [h]
  rfl

/-- Claim C8: every failing parse leaves the output untouched: when
`extract` reports any error, the list of persisted (filename,
contents) pairs is empty, so no entry decoded before a failing record
is ever written. -/
theorem C8_error_means_no_output (buffer : List Byte) (e : FormatError)
    (h : (extract buffer).1 = .error e) : (extract buffer).2 = [] := by
  unfold extract at h ⊢
  rcases hb : extractBundles buffer with e1 | bundles
  · rfl
  · rw [hb] at h
    exfalso
    simp at h

theorem C8_witness :
    (extract (List.replicate 8 255 ++ List.replicate 24 0 ++ TRAILER)).2 = [] :=
  C8_error_means_no_output (List.replicate 8 255 ++ List.replicate 24 0 ++ TRAILER)
    .InvalidByteCount (by rfl)
